import Mathlib

/-!
# Verification of the PyNite `RectWall` panel example and `Section.py`

This file is a shallow embedding, over exact rationals (idealizing Python
floats) and reals (for the calculus facts about the section capacity model),
of the code in

* `Examples/Out-of-Plane Wall Panel - Quads.py` — the `RectWall` class:
  mesh generation (`__descritize`), support assignment (`__define_supports`),
  the pressure-distribution loop inside `analyze`, and the `add_load` /
  `clear_loads` mutators;
* `PyNite/Section.py` — `Section.__init__`, `Section.G`,
  `SteelSection.__init__`, `SteelSection.Phi` and `SteelSection.G`.

Python `float` arithmetic is idealized as exact `ℚ` (or `ℝ`) arithmetic;
`ZeroDivisionError` and `TypeError` are modelled explicitly via `Except`.
-/

namespace PyNiteV

/-- Python 3 `round` on an exact rational: round-half-to-even. -/
def pyRound (q : ℚ) : ℤ :=
  let f := ⌊q⌋
  let r := q - (f : ℚ)
  if r < 1/2 then f
  else if 1/2 < r then f + 1
  else if Even f then f else f + 1

/-- Python `int(...)` applied to a (true-division) quotient: truncation
toward zero. -/
def intTrunc (q : ℚ) : ℤ := if 0 ≤ q then ⌊q⌋ else -⌊-q⌋

/-- A surface-load band, `(y_bot, y_top, p_bot, p_top)` as appended by
`RectWall.add_load`. -/
structure Load where
  yBot : ℚ
  yTop : ℚ
  pBot : ℚ
  pTop : ℚ
deriving DecidableEq

/-- A node created by `FEModel3D.AddNode('N'+str(node_id), x, y, z)`.
`id` is the numeric part of the name; a fresh `Node3D` carries six
support flags, all initially `False` (they are mutated only by
`__define_supports`). -/
structure PyNode where
  id : ℤ
  x : ℚ
  y : ℚ
  z : ℚ
  sDX : Bool
  sDY : Bool
  sDZ : Bool
  sRX : Bool
  sRY : Bool
  sRZ : Bool
deriving DecidableEq

/-- A quadrilateral created by
`AddQuad('P'+str(pl_id), 'N'+str(ni), 'N'+str(nj), 'N'+str(nm), 'N'+str(nn), t, E, nu)`.
The numeric parts of the names are stored. -/
structure PyQuad where
  id : ℤ
  ni : ℤ
  nj : ℤ
  nm : ℤ
  nn : ℤ
  t : ℚ
  eMod : ℚ
  nu : ℚ
deriving DecidableEq

/-- The Python errors that the embedded code can raise. -/
inductive PyErr where
  | zeroDivision
  | typeError
  | keyError
deriving DecidableEq

/-- The canonical realization of Python's `list(set(y))`: some
duplicate-free list with the same members as `y`, in an unspecified order
(the order is irrelevant because the source sorts right afterwards; see the
dedup-order-independence theorem for the idempotence claim). -/
def dedupPy (l : List ℚ) : List ℚ := l.dedup

/-- The mesh control points along the wall height, from `__descritize`:
start from `[0.0, height]`; for each registered load append its start and
end heights, remove duplicates (`list(set(y))`, realized by `d`) and sort. -/
def controlPointsD (d : List ℚ → List ℚ) (height : ℚ) (loads : List Load) : List ℚ :=
  loads.foldl (fun acc ld => ((d (acc ++ [ld.yBot, ld.yTop])).insertionSort (· ≤ ·))) [0, height]

/-- Loop state of `__descritize` while walking the control points:
`y_prev`, the next node id, the next quad id, and the accumulated
node/quad lists of the model. -/
structure GenState where
  yPrev : ℚ
  nodeId : ℤ
  plId : ℤ
  nodes : List PyNode
  quads : List PyQuad
deriving DecidableEq

/-- One iteration of `for control_point in iter_y` in `__descritize`:
compute the lift height and row count, generate the lift's node rows
(skipping row `j = 0`, which the previous lift produced), then generate the
lift's quadrilaterals. -/
def liftStep (numCols : ℤ) (plWidth meshSize t e nu : ℚ) (st : GenState) (cp : ℚ) :
    GenState :=
  let h := cp - st.yPrev
  let numRows : ℤ := max 1 (pyRound (h / meshSize))
  let plHeight := h / (numRows : ℚ)
  let ns :=
    (List.range (numRows + 1).toNat).foldl (fun (a : ℤ × List PyNode) j =>
      (List.range (numCols + 1).toNat).foldl (fun (b : ℤ × List PyNode) i =>
        if j ≠ 0 then
          (b.1 + 1, b.2 ++ [⟨b.1, (i : ℚ) * plWidth, (j : ℚ) * plHeight + st.yPrev, 0,
            false, false, false, false, false, false⟩])
        else b) a)
      (st.nodeId, st.nodes)
  let qs :=
    (List.range numRows.toNat).foldl (fun (a : ℤ × List PyQuad) _j =>
      (List.range numCols.toNat).foldl (fun (b : ℤ × List PyQuad) _i =>
        let plId := b.1
        let ni : ℤ := plId + max 0 (intTrunc (((plId : ℚ) - 1) / (numCols : ℚ)))
        let nj := ni + 1
        let nm := nj + (numCols + 1)
        let nn := nm - 1
        (plId + 1, b.2 ++ [⟨plId, ni, nj, nm, nn, t, e, nu⟩])) a)
      (st.plId, st.quads)
  { yPrev := cp, nodeId := ns.1, plId := qs.1, nodes := ns.2, quads := qs.2 }

/-- The method `RectWall.__descritize`, parameterized over the `list(set(...))`
realization `d`.  Returns the node and quad lists added to the model, or
the Python error raised.  `width/mesh_size` with `mesh_size = 0`, and
`width/num_cols` with `num_cols = 0`, raise `ZeroDivisionError`. -/
def descritizeD (d : List ℚ → List ℚ) (width height meshSize t e nu : ℚ)
    (loads : List Load) : Except PyErr (List PyNode × List PyQuad) :=
  if meshSize = 0 then .error .zeroDivision else
  let numCols : ℤ := pyRound (width / meshSize)
  if numCols = 0 then .error .zeroDivision else
  let plWidth := width / (numCols : ℚ)
  let y := controlPointsD d height loads
  let bottom :=
    (List.range (numCols + 1).toNat).foldl
      (fun a i => (a.1 + 1, a.2 ++ [⟨a.1, (i : ℚ) * plWidth, 0, 0,
        false, false, false, false, false, false⟩]))
      ((1 : ℤ), ([] : List PyNode))
  let final :=
    (y.drop 1).foldl (liftStep numCols plWidth meshSize t e nu)
      { yPrev := 0, nodeId := bottom.1, plId := 1, nodes := bottom.2, quads := [] }
  .ok (final.nodes, final.quads)

/-- The method `__descritize` as executed by the source (`dedupPy` realizing
`list(set(y))`). -/
def descritize (width height meshSize t e nu : ℚ) (loads : List Load) :
    Except PyErr (List PyNode × List PyQuad) :=
  descritizeD dedupPy width height meshSize t e nu loads

/-! ## Closed-form descriptions of the generated mesh

The following definitions are not part of the embedded program; they are
the explicit row-major grid that the fold in `descritizeD` is later proved
to produce, and are used to state the structural claims. -/

/-- One row of `c + 1` nodes with consecutive ids starting at `startId`,
at height `yr`. -/
def rowNodes (c : ℕ) (plWidth : ℚ) (startId : ℤ) (yr : ℚ) : List PyNode :=
  (List.range (c + 1)).map fun (i : ℕ) =>
    ⟨startId + (i : ℤ), (i : ℚ) * plWidth, yr, 0, false, false, false, false, false, false⟩

/-- Stacked node rows, one per entry of the row-height list, ids
continuing row-major. -/
def gridNodes (c : ℕ) (plWidth : ℚ) : ℤ → List ℚ → List PyNode
  | _, [] => []
  | startId, yr :: rest =>
    rowNodes c plWidth startId yr ++ gridNodes c plWidth (startId + (c + 1)) rest

/-- The quadrilateral that the body of the element loop in `__descritize`
creates for quad id `plId`. -/
def quadFromId (numCols : ℤ) (t e nu : ℚ) (plId : ℤ) : PyQuad :=
  let ni : ℤ := plId + max 0 (intTrunc (((plId : ℚ) - 1) / (numCols : ℚ)))
  let nj := ni + 1
  let nm := nj + (numCols + 1)
  let nn := nm - 1
  ⟨plId, ni, nj, nm, nn, t, e, nu⟩

/-- A run of `count` quadrilaterals with consecutive ids starting at `startId`. -/
def gridQuads (numCols : ℤ) (t e nu : ℚ) (startId : ℤ) (count : ℕ) : List PyQuad :=
  (List.range count).map fun (k : ℕ) => quadFromId numCols t e nu (startId + (k : ℤ))

/-- The number of quad rows in the lift that ends at control point `cp`,
starting from `yPrev`. -/
def liftR (meshSize yPrev cp : ℚ) : ℕ := (max 1 (pyRound ((cp - yPrev) / meshSize))).toNat

/-- The node-row heights of a lift: `j * plHeight + yPrev` for
`j = 1, …, r` (row `j = 0` belongs to the previous lift). -/
def liftYs (r : ℕ) (plHeight yPrev : ℚ) : List ℚ :=
  (List.range r).map fun (j : ℕ) => ((j : ℚ) + 1) * plHeight + yPrev

/-- All node-row heights generated above the bottom row, walking the
control points. -/
def rowsYsFrom (meshSize : ℚ) : ℚ → List ℚ → List ℚ
  | _, [] => []
  | yPrev, cp :: rest =>
    liftYs (liftR meshSize yPrev cp) ((cp - yPrev) / (liftR meshSize yPrev cp : ℚ)) yPrev
      ++ rowsYsFrom meshSize cp rest

/-- All node-row heights of the generated wall mesh, bottom row included. -/
def wallRowYs (d : List ℚ → List ℚ) (height meshSize : ℚ) (loads : List Load) : List ℚ :=
  0 :: rowsYsFrom meshSize 0 ((controlPointsD d height loads).drop 1)

/-- A well-behaved realization of Python's `list(set(l))`: duplicate-free
and with exactly the members of `l`, in an arbitrary order. -/
def validDedup (d : List ℚ → List ℚ) : Prop :=
  ∀ l : List ℚ, (d l).Nodup ∧ ∀ a : ℚ, a ∈ d l ↔ a ∈ l

/-- A second concrete realization of `list(set(l))` (reverse iteration
order), used to exercise dedup-order independence. -/
def dedupRev (l : List ℚ) : List ℚ := l.reverse.dedup

/-! ## `RectWall.__define_supports` -/

/-- Numpy's `np.isclose(a, b)` with its default tolerances
`rtol = 1e-5`, `atol = 1e-8`. -/
def npIsClose (a b : ℚ) : Bool :=
  decide (|a - b| ≤ 1 / 100000000 + 1 / 100000 * |b|)

/-- The restraint pattern that each edge branch of `__define_supports`
applies: `Fixed` sets `DX, DY, DZ, RX, RY`; `Pinned` sets `DX, DY, DZ`;
any other policy value leaves the node untouched.  (The four edge branches
of the source repeat this pattern verbatim with their own policy
variable.) -/
def applyEdgePolicy (policy : String) (n : PyNode) : PyNode :=
  if policy = "Fixed" then
    { n with sDX := true, sDY := true, sDZ := true, sRX := true, sRY := true }
  else if policy = "Pinned" then
    { n with sDX := true, sDY := true, sDZ := true }
  else n

/-- The per-node body of `RectWall.__define_supports`: an `if/elif` chain
testing the left, right, bottom and top edges in that order, applying
only the first matching edge's policy. -/
def defineSupportsOne (leftS rightS botS topS : String) (width height : ℚ)
    (n : PyNode) : PyNode :=
  if npIsClose n.x 0 then applyEdgePolicy leftS n
  else if npIsClose n.x width then applyEdgePolicy rightS n
  else if npIsClose n.y 0 then applyEdgePolicy botS n
  else if npIsClose n.y height then applyEdgePolicy topS n
  else n

/-! ## The pressure-distribution loop inside `RectWall.analyze` -/

/-- The load-case tag used by `analyze` when appending pressures. -/
def caseName : String := "Case 1"

/-- The centroid height `avgY = (i_node.Y + j_node.Y + m_node.Y + n_node.Y)/4`. -/
def centroidY (yi yj ym yn : ℚ) : ℚ := (yi + yj + ym + yn) / 4

/-- The `for load in self.loads` loop of `analyze` for one quad: a running
scalar `pressure` starts at `0`; every band containing `avgY` (inclusive
both ends) adds its interpolated value to `pressure`, and — inside the
loop — appends the current running total, tagged `'Case 1'`, to the quad's
pressure list.  The returned list is the sequence of appended entries.
(A band with `y2 = y1` would raise `ZeroDivisionError` in Python when it
contains `avgY`; the `ℚ` idealization returns `0` for that division, and no
claim touches that case.) -/
def distributeQuadPressure (loads : List Load) (avgY : ℚ) : List (ℚ × String) :=
  (loads.foldl (fun (acc : ℚ × List (ℚ × String)) ld =>
    if avgY ≤ ld.yTop ∧ ld.yBot ≤ avgY then
      let pressure :=
        acc.1 + ((ld.pTop - ld.pBot) / (ld.yTop - ld.yBot) * (avgY - ld.yBot) + ld.pBot)
      (pressure, acc.2 ++ [(pressure, caseName)])
    else acc) (0, [])).2

/-! ## The `RectWall` object -/

/-- The `RectWall` state: constructor arguments, the mutable load list,
the `__analyzed` flag, and the `FEModel3D` contents (node list, quad list,
and the applied quad surface pressures, flattened as
`(quad id, pressure, case)` in append order). -/
structure RectWall where
  width : ℚ
  height : ℚ
  thickness : ℚ
  meshSize : ℚ
  eMod : ℚ
  nu : ℚ
  botSupport : String
  topSupport : String
  leftSupport : String
  rightSupport : String
  loads : List Load
  analyzed : Bool
  femNodes : List PyNode
  femQuads : List PyQuad
  pressures : List (ℤ × ℚ × String)
deriving DecidableEq

/-- The method `RectWall.add_load`: append the band and reset `__analyzed`. -/
def addLoad (w : RectWall) (yBot yTop pBot pTop : ℚ) : RectWall :=
  { w with loads := w.loads ++ [⟨yBot, yTop, pBot, pTop⟩], analyzed := false }

/-- The method `RectWall.clear_loads`: empty the load list, reset `__analyzed`, and
`fem.ClearLoads()`.  Modelled from the spec: the external
`FEModel3D.ClearLoads` collaborator ("create/clear named loads", spec §6)
removes the loads registered on the model, i.e. the applied quad
pressures. -/
def clearLoads (w : RectWall) : RectWall :=
  { w with loads := [], analyzed := false, pressures := [] }

/-- Look up the Y coordinate of the node a quad references
(`quad.iNode.Y` etc.; quads reference nodes of the model by name, and the
generated names always exist, so the default is never taken for meshes
the generator built). -/
def nodeY (ns : List PyNode) (i : ℤ) : ℚ :=
  ((ns.find? fun n => n.id == i).map PyNode.y).getD 0

/-- The method `RectWall.analyze`, up to the external solve: unconditionally re-run
`__descritize` (which adds the freshly generated nodes and quads to the
model), re-run `__define_supports` over all model nodes, then walk every
model quad and append its band pressures.  The final `fem.Analyze()` call
and the max-displacement query are delegated to the external solver
collaborator and are not modelled.  Note the method neither reads nor
writes `self.__analyzed`. -/
def analyze (w : RectWall) : Except PyErr RectWall :=
  match descritize w.width w.height w.meshSize w.thickness w.eMod w.nu w.loads with
  | .error e => .error e
  | .ok (ns, qs) =>
    let femN0 := w.femNodes ++ ns
    let femQ := w.femQuads ++ qs
    let femN := femN0.map
      (defineSupportsOne w.leftSupport w.rightSupport w.botSupport w.topSupport
        w.width w.height)
    let newP := femQ.foldl (fun acc q =>
      acc ++ (distributeQuadPressure w.loads
          (centroidY (nodeY femN q.ni) (nodeY femN q.nj) (nodeY femN q.nm)
            (nodeY femN q.nn))).map
        (fun pc => (q.id, pc.1, pc.2))) []
    .ok { w with femNodes := femN, femQuads := femQ, pressures := w.pressures ++ newP }

/-- Everything observable about a wall except the private `__analyzed`
flag. -/
def wallObs (w : RectWall) :
    List Load × List PyNode × List PyQuad × List (ℤ × ℚ × String) :=
  (w.loads, w.femNodes, w.femQuads, w.pressures)

/-- Observation of an `analyze` outcome. -/
def obsE (r : Except PyErr RectWall) :
    Except PyErr (List Load × List PyNode × List PyQuad × List (ℤ × ℚ × String)) :=
  r.map wallObs

/-- Overwrite the `__analyzed` flag. -/
def setAnalyzed (w : RectWall) (b : Bool) : RectWall := { w with analyzed := b }

/-- "The dirty flag gates `analyze`": there is some wall state on which
the outcome of `analyze` (up to the flag itself) depends on the flag. -/
def analyzeUsesFlag : Prop :=
  ∃ w : RectWall, obsE (analyze (setAnalyzed w true)) ≠ obsE (analyze (setAnalyzed w false))

/-! ## `PyNite/Section.py` -/

/-- A Python value, as far as the `Section` constructors inspect one. -/
inductive PyVal where
  | obj : PyVal
  | str : String → PyVal
  | num : ℚ → PyVal
deriving DecidableEq

/-- The attributes `Section.__init__` assigns. -/
structure SectionAttrs where
  model : PyVal
  name : PyVal
  A : PyVal
  Iy : PyVal
  Iz : PyVal
  J : PyVal
deriving DecidableEq

/-- A positional call of `Section.__init__(self, model, name, A, Iy, Iz, J)`:
the callee binds exactly six parameters after `self`; any other argument
count raises `TypeError` before the body runs. -/
def sectionInitCall (args : List PyVal) : Except PyErr SectionAttrs :=
  match args with
  | [m, n, a, iy, iz, j] => .ok ⟨m, n, a, iy, iz, j⟩
  | _ => .error .typeError

/-- The constructor `SteelSection.__init__(self, model, name, A, Iy, Iz, J, Zy, Zz, material_name)`:
its first statement forwards the seven positional arguments
`(model, name, A, Iy, Iz, J, material_name)` to `Section.__init__`.  The
remainder of the body (assigning `ry`, `rz`, `Zy`, `Zz` and looking up
`model.materials[material_name]`) is abstracted as the continuation
`rest`, which receives the base attributes; the theorems below hold for
every continuation, because the forwarded call raises first. -/
def steelSectionInitWith {α : Type} (rest : SectionAttrs → Except PyErr α)
    (model name A Iy Iz J Zy Zz materialName : PyVal) : Except PyErr α :=
  match sectionInitCall [model, name, A, Iy, Iz, J, materialName] with
  | .error e => .error e
  | .ok base => rest base

/-- The method `SteelSection.Phi(fx, my, mz)`: the interaction polynomial of
"Matrix Structural Analysis, 2nd Edition", Equation 10.18, with
`Py = fy*A`, `Mpy = fy*Zy`, `Mpz = fy*Zz` read from the section and its
material.  Polymorphic over a field so that the same definition is
executable on `ℚ` and differentiable on `ℝ`. -/
def steelPhi {K : Type} [Field K] (fy A Zy Zz : K) (fx my mz : K) : K :=
  let Py := fy * A
  let Mpy := fy * Zy
  let Mpz := fy * Zz
  let p := fx / Py
  let m_y := my / Mpy
  let m_z := mz / Mpz
  p ^ 2 + m_z ^ 2 + m_y ^ 4 + (7 / 2) * p ^ 2 * m_z ^ 2 + 3 * p ^ 6 * m_y ^ 2
    + (9 / 2) * m_z ^ 4 * m_y ^ 2

/-- The 6-component gradient layout `[[dFx], [0], [0], [0], [dMy], [dMz]]`
returned by both `Section.G` and `SteelSection.G`. -/
structure Grad6 (K : Type) where
  dFx : K
  z1 : K
  z2 : K
  z3 : K
  dMy : K
  dMz : K

/-- The method `SteelSection.G(fx, my, mz)`: the closed-form expressions the source
labels "Partial derivatives of Phi" (`7.0`, `9.0`, `18.0` are the source's
float literals). -/
def steelG {K : Type} [Field K] (fy A Zy Zz : K) (fx my mz : K) : Grad6 K :=
  let Py := fy * A
  let Mpy := fy * Zy
  let Mpz := fy * Zz
  { dFx := 18 * fx ^ 5 * my ^ 2 / (Mpy ^ 2 * Py ^ 6) + 2 * fx / Py ^ 2
      + 7 * fx * mz ^ 2 / (Mpz ^ 2 * Py ^ 2)
  , z1 := 0
  , z2 := 0
  , z3 := 0
  , dMy := 6 * fx ^ 6 * my / (Mpy ^ 2 * Py ^ 6) + 2 * my / Mpy ^ 2
      + 9 * my * mz ^ 4 / (Mpy ^ 2 * Mpz ^ 4)
  , dMz := 7 * fx ^ 2 * mz / (Mpz ^ 2 * Py ^ 2) + 2 * mz / Mpz ^ 2
      + 18 * my ^ 2 * mz ^ 3 / (Mpy ^ 2 * Mpz ^ 4) }

/-- The method `Section.G(fx, my, mz)`: the base-class symmetric central-difference
gradient of `self.Phi` with step `epsilon = 1e-6`. -/
def sectionG {K : Type} [Field K] (phi : K → K → K → K) (fx my mz : K) : Grad6 K :=
  let epsilon : K := 1 / 1000000
  { dFx := (phi (fx + epsilon) my mz - phi (fx - epsilon) my mz) / (2 * epsilon)
  , z1 := 0
  , z2 := 0
  , z3 := 0
  , dMy := (phi fx (my + epsilon) mz - phi fx (my - epsilon) mz) / (2 * epsilon)
  , dMz := (phi fx my (mz + epsilon) - phi fx my (mz - epsilon)) / (2 * epsilon) }

/-! ## Fold plumbing -/

theorem foldl_emit_range {β : Type} (g : ℤ → ℕ → β) (n : ℕ) (start : ℤ) (acc : List β) :
    (List.range n).foldl (fun (a : ℤ × List β) i => (a.1 + 1, a.2 ++ [g a.1 i])) (start, acc)
      = (start + n, acc ++ (List.range n).map fun (i : ℕ) => g (start + (i : ℤ)) i) := by
  induction n with
  | zero => simp
  | succ n ih =>
      rw [List.range_succ, List.foldl_append, ih]
      simp [List.range_succ, List.append_assoc]
      ring

theorem foldl_const_id {α β : Type} (l : List α) (a : β) :
    l.foldl (fun b _ => b) a = a := by
  induction l with
  | nil => rfl
  | cons x xs ih => exact ih

theorem toNat_max_one_cast (z : ℤ) : (((max 1 z).toNat : ℤ)) = max 1 z :=
  Int.toNat_of_nonneg (le_trans zero_le_one (le_max_left 1 z))

theorem liftR_cast_rat (s yPrev cp : ℚ) :
    ((liftR s yPrev cp : ℕ) : ℚ) = ((max 1 (pyRound ((cp - yPrev) / s)) : ℤ) : ℚ) := by
  have h := toNat_max_one_cast (pyRound ((cp - yPrev) / s))
  rw [liftR]
  exact_mod_cast congrArg (fun z : ℤ => (z : ℚ)) h

theorem liftR_pos (s yPrev cp : ℚ) : 1 ≤ liftR s yPrev cp := by
  have h := toNat_max_one_cast (pyRound ((cp - yPrev) / s))
  rw [liftR]
  omega

theorem gridNodes_cons (c : ℕ) (plW : ℚ) (startId : ℤ) (y : ℚ) (rest : List ℚ) :
    gridNodes c plW startId (y :: rest)
      = rowNodes c plW startId y ++ gridNodes c plW (startId + ((c : ℤ) + 1)) rest := rfl

theorem gridNodes_append (c : ℕ) (plW : ℚ) (l₁ : List ℚ) :
    ∀ (l₂ : List ℚ) (startId : ℤ),
      gridNodes c plW startId (l₁ ++ l₂)
        = gridNodes c plW startId l₁
          ++ gridNodes c plW (startId + (l₁.length : ℤ) * ((c : ℤ) + 1)) l₂ := by
  induction l₁ with
  | nil => intro l₂ startId; simp [gridNodes]
  | cons y ys ih =>
      intro l₂ startId
      rw [List.cons_append, gridNodes_cons, ih, gridNodes_cons, ← List.append_assoc]
      have harith : startId + ((c : ℤ) + 1) + (ys.length : ℤ) * ((c : ℤ) + 1)
          = startId + (((y :: ys).length : ℤ)) * ((c : ℤ) + 1) := by
        simp only [List.length_cons]
        push_cast
        ring
      rw [harith]

theorem gridQuads_append (numCols : ℤ) (t e nu : ℚ) (startId : ℤ) (m n : ℕ) :
    gridQuads numCols t e nu startId m ++ gridQuads numCols t e nu (startId + m) n
      = gridQuads numCols t e nu startId (m + n) := by
  unfold gridQuads
  rw [List.range_add, List.map_append, List.map_map]
  congr 1
  refine List.map_congr_left fun k _ => ?_
  simp only [Function.comp]
  congr 1
  push_cast
  ring

theorem gridNodes_length (c : ℕ) (plW : ℚ) (l : List ℚ) :
    ∀ startId : ℤ, (gridNodes c plW startId l).length = l.length * (c + 1) := by
  induction l with
  | nil => intro startId; simp [gridNodes]
  | cons y ys ih =>
      intro startId
      simp only [gridNodes, List.length_append, ih, rowNodes, List.length_map,
        List.length_range, List.length_cons]
      ring

theorem gridQuads_length (numCols : ℤ) (t e nu : ℚ) (startId : ℤ) (count : ℕ) :
    (gridQuads numCols t e nu startId count).length = count := by
  simp [gridQuads]

theorem liftYs_succ (R : ℕ) (plH yPrev : ℚ) :
    liftYs (R + 1) plH yPrev = liftYs R plH yPrev ++ [((R : ℚ) + 1) * plH + yPrev] := by
  simp [liftYs, List.range_succ]

theorem liftYs_length (R : ℕ) (plH yPrev : ℚ) : (liftYs R plH yPrev).length = R := by
  rw [liftYs, List.length_map, List.length_range]

/-- The lemma `foldl_emit_range` specialized to one row of nodes at height `yv`. -/
theorem foldl_emit_row (plW yv : ℚ) (c : ℕ) (start : ℤ) (acc : List PyNode) :
    (List.range (c + 1)).foldl
      (fun (b : ℤ × List PyNode) (i : ℕ) =>
        (b.1 + 1, b.2 ++ [⟨b.1, (i : ℚ) * plW, yv, 0,
          false, false, false, false, false, false⟩]))
      (start, acc)
    = (start + ((c + 1 : ℕ) : ℤ), acc ++ rowNodes c plW start yv) :=
  foldl_emit_range
    (fun (s : ℤ) (i : ℕ) =>
      (⟨s, (i : ℚ) * plW, yv, 0, false, false, false, false, false, false⟩ : PyNode))
    (c + 1) start acc

/-- The lemma `foldl_emit_range` specialized to one row of quads. -/
theorem foldl_emit_quadRow (numCols : ℤ) (t e nu : ℚ) (cn : ℕ) (start : ℤ)
    (acc : List PyQuad) :
    (List.range cn).foldl
      (fun (b : ℤ × List PyQuad) (_i : ℕ) =>
        (b.1 + 1, b.2 ++ [quadFromId numCols t e nu b.1]))
      (start, acc)
    = (start + (cn : ℤ), acc ++ gridQuads numCols t e nu start cn) :=
  foldl_emit_range (fun (s : ℤ) (_i : ℕ) => quadFromId numCols t e nu s) cn start acc

theorem gridNodes_singleton (c : ℕ) (plW : ℚ) (startId : ℤ) (y : ℚ) :
    gridNodes c plW startId [y] = rowNodes c plW startId y := by
  rw [gridNodes_cons]
  simp [gridNodes]

/-- Closed form of the node-generating double loop of a lift, after the
`j = 0` iteration (which generates nothing) has been peeled off. -/
theorem rows_fold (c : ℕ) (plW plH yPrev : ℚ) (R : ℕ) :
    ∀ (start : ℤ) (acc : List PyNode),
      (List.range R).foldl
        (fun (a : ℤ × List PyNode) (j : ℕ) =>
          (List.range (c + 1)).foldl
            (fun (b : ℤ × List PyNode) (i : ℕ) =>
              if Nat.succ j ≠ 0 then
                (b.1 + 1, b.2 ++ [⟨b.1, (i : ℚ) * plW, ((Nat.succ j : ℕ) : ℚ) * plH + yPrev,
                  0, false, false, false, false, false, false⟩])
              else b) a)
        (start, acc)
      = (start + ((R * (c + 1) : ℕ) : ℤ),
          acc ++ gridNodes c plW start (liftYs R plH yPrev)) := by
  induction R with
  | zero => intro start acc; simp [gridNodes, liftYs]
  | succ R ih =>
      intro start acc
      rw [List.range_succ R, List.foldl_append, ih start acc]
      simp only [List.foldl_cons, List.foldl_nil]
      have hbody : (fun (b : ℤ × List PyNode) (i : ℕ) =>
            if Nat.succ R ≠ 0 then
              (b.1 + 1, b.2 ++ [⟨b.1, (i : ℚ) * plW, ((Nat.succ R : ℕ) : ℚ) * plH + yPrev,
                0, false, false, false, false, false, false⟩])
            else b)
          = fun (b : ℤ × List PyNode) (i : ℕ) =>
              (b.1 + 1, b.2 ++ [(⟨b.1, (i : ℚ) * plW, ((Nat.succ R : ℕ) : ℚ) * plH + yPrev,
                0, false, false, false, false, false, false⟩ : PyNode)]) := by
        funext b i
        simp
      rw [hbody, foldl_emit_row]
      rw [liftYs_succ, gridNodes_append, gridNodes_singleton, liftYs_length]
      refine Prod.ext ?_ ?_
      · show start + ((R * (c + 1) : ℕ) : ℤ) + ((c + 1 : ℕ) : ℤ) = start + (((R + 1) * (c + 1) : ℕ) : ℤ)
        push_cast
        ring
      · show (acc ++ gridNodes c plW start (liftYs R plH yPrev)) ++ _ = _
        rw [List.append_assoc]
        congr 2
        have h1 : start + ((R * (c + 1) : ℕ) : ℤ) = start + (R : ℤ) * ((c : ℤ) + 1) := by
          push_cast
          ring
        have h2 : ((Nat.succ R : ℕ) : ℚ) * plH + yPrev = ((R : ℚ) + 1) * plH + yPrev := by
          push_cast
          ring
        rw [h1, h2]

theorem foldl_if_zero {α β : Type} (l : List α) (a : β) (g : β → α → β) :
    l.foldl (fun b i => if (0 : ℕ) ≠ 0 then g b i else b) a = a := by
  have h : (fun (b : β) (i : α) => if (0 : ℕ) ≠ 0 then g b i else b) = fun b _ => b := by
    funext b i
    simp
  rw [h, foldl_const_id]

/-- Closed form of the quad-generating double loop of a lift (the body
depends only on the running quad id). -/
theorem quads_fold (numCols : ℤ) (t e nu : ℚ) (cn : ℕ) (R : ℕ) :
    ∀ (start : ℤ) (acc : List PyQuad),
      (List.range R).foldl
        (fun (a : ℤ × List PyQuad) (_j : ℕ) =>
          (List.range cn).foldl
            (fun (b : ℤ × List PyQuad) (_i : ℕ) =>
              (b.1 + 1, b.2 ++ [quadFromId numCols t e nu b.1])) a)
        (start, acc)
      = (start + ((R * cn : ℕ) : ℤ),
          acc ++ gridQuads numCols t e nu start (R * cn)) := by
  induction R with
  | zero => intro start acc; simp [gridQuads]
  | succ R ih =>
      intro start acc
      rw [List.range_succ R, List.foldl_append, ih start acc]
      simp only [List.foldl_cons, List.foldl_nil]
      rw [foldl_emit_quadRow, List.append_assoc, gridQuads_append]
      refine Prod.ext ?_ ?_
      · show start + ((R * cn : ℕ) : ℤ) + (cn : ℤ) = start + (((R + 1) * cn : ℕ) : ℤ)
        push_cast
        ring
      · show acc ++ _ = acc ++ _
        congr 2
        ring

/-- Closed form of one iteration of the control-point loop of
`__descritize`. -/
theorem liftStep_eq (numCols : ℤ) (hC : 1 ≤ numCols) (plW s t e nu : ℚ)
    (st : GenState) (cp : ℚ) :
    liftStep numCols plW s t e nu st cp =
      { yPrev := cp
      , nodeId := st.nodeId + ((liftR s st.yPrev cp * (numCols.toNat + 1) : ℕ) : ℤ)
      , plId := st.plId + ((liftR s st.yPrev cp * numCols.toNat : ℕ) : ℤ)
      , nodes := st.nodes ++ gridNodes numCols.toNat plW st.nodeId
          (liftYs (liftR s st.yPrev cp)
            ((cp - st.yPrev) / ((liftR s st.yPrev cp : ℕ) : ℚ)) st.yPrev)
      , quads := st.quads ++ gridQuads numCols t e nu st.plId
          (liftR s st.yPrev cp * numCols.toNat) } := by
  have hRsucc : (max 1 (pyRound ((cp - st.yPrev) / s)) + 1).toNat
      = liftR s st.yPrev cp + 1 := by
    have h := toNat_max_one_cast (pyRound ((cp - st.yPrev) / s))
    rw [liftR]
    omega
  have hCsucc : (numCols + 1).toNat = numCols.toNat + 1 := by omega
  have hquads :
      List.foldl
        (fun (a : ℤ × List PyQuad) (_j : ℕ) =>
          List.foldl
            (fun (b : ℤ × List PyQuad) (_i : ℕ) =>
              (b.1 + 1,
                b.2 ++
                  [{ id := b.1,
                     ni := b.1 + max 0 (intTrunc (((b.1 : ℚ) - 1) / (numCols : ℚ))),
                     nj := b.1 + max 0 (intTrunc (((b.1 : ℚ) - 1) / (numCols : ℚ))) + 1,
                     nm := b.1 + max 0 (intTrunc (((b.1 : ℚ) - 1) / (numCols : ℚ))) + 1
                       + (numCols + 1),
                     nn := b.1 + max 0 (intTrunc (((b.1 : ℚ) - 1) / (numCols : ℚ))) + 1
                       + (numCols + 1) - 1,
                     t := t, eMod := e, nu := nu }]))
            a (List.range numCols.toNat))
        (st.plId, st.quads) (List.range (max 1 (pyRound ((cp - st.yPrev) / s))).toNat)
      = (st.plId + ((liftR s st.yPrev cp * numCols.toNat : ℕ) : ℤ),
          st.quads ++ gridQuads numCols t e nu st.plId (liftR s st.yPrev cp * numCols.toNat)) :=
    quads_fold numCols t e nu numCols.toNat (liftR s st.yPrev cp) st.plId st.quads
  have hnodes :
      List.foldl
        (fun (a : ℤ × List PyNode) (j : ℕ) =>
          List.foldl
            (fun (b : ℤ × List PyNode) (i : ℕ) =>
              if j ≠ 0 then
                (b.1 + 1,
                  b.2 ++
                    [{ id := b.1, x := (i : ℚ) * plW,
                       y := (j : ℚ) * ((cp - st.yPrev)
                         / ((max 1 (pyRound ((cp - st.yPrev) / s)) : ℤ) : ℚ)) + st.yPrev,
                       z := 0, sDX := false, sDY := false, sDZ := false, sRX := false,
                       sRY := false, sRZ := false }])
              else b)
            a (List.range (numCols + 1).toNat))
        (st.nodeId, st.nodes) (List.range (max 1 (pyRound ((cp - st.yPrev) / s)) + 1).toNat)
      = (st.nodeId + ((liftR s st.yPrev cp * (numCols.toNat + 1) : ℕ) : ℤ),
          st.nodes ++ gridNodes numCols.toNat plW st.nodeId
            (liftYs (liftR s st.yPrev cp)
              ((cp - st.yPrev) / ((liftR s st.yPrev cp : ℕ) : ℚ)) st.yPrev)) := by
    rw [← liftR_cast_rat, hRsucc, hCsucc, List.range_succ_eq_map (liftR s st.yPrev cp),
      List.foldl_cons]
    simp only [List.foldl_map]
    rw [foldl_if_zero]
    exact rows_fold numCols.toNat plW
      ((cp - st.yPrev) / ((liftR s st.yPrev cp : ℕ) : ℚ)) st.yPrev
      (liftR s st.yPrev cp) st.nodeId st.nodes
  simp only [liftStep]
  rw [hnodes, hquads]

/-- Closed form of the whole control-point fold of `__descritize`. -/
theorem liftsFold_eq (numCols : ℤ) (hC : 1 ≤ numCols) (plW s t e nu : ℚ) (cps : List ℚ) :
    ∀ (st : GenState),
      cps.foldl (liftStep numCols plW s t e nu) st =
        { yPrev := cps.getLastD st.yPrev
        , nodeId := st.nodeId
            + (((rowsYsFrom s st.yPrev cps).length * (numCols.toNat + 1) : ℕ) : ℤ)
        , plId := st.plId + (((rowsYsFrom s st.yPrev cps).length * numCols.toNat : ℕ) : ℤ)
        , nodes := st.nodes
            ++ gridNodes numCols.toNat plW st.nodeId (rowsYsFrom s st.yPrev cps)
        , quads := st.quads ++ gridQuads numCols t e nu st.plId
            ((rowsYsFrom s st.yPrev cps).length * numCols.toNat) } := by
  induction cps with
  | nil =>
      intro st
      simp [rowsYsFrom, gridNodes, gridQuads]
  | cons cp rest ih =>
      intro st
      rw [List.foldl_cons, liftStep_eq numCols hC plW s t e nu st cp, ih]
      simp only [rowsYsFrom, List.getLastD_cons]
      rw [gridNodes_append, List.length_append, liftYs_length]
      simp only [GenState.mk.injEq]
      refine ⟨trivial, ?_, ?_, ?_, ?_⟩
      · push_cast
        ring
      · push_cast
        ring
      · have hx : st.nodeId + ((liftR s st.yPrev cp * (numCols.toNat + 1) : ℕ) : ℤ)
            = st.nodeId + (liftR s st.yPrev cp : ℤ) * ((numCols.toNat : ℤ) + 1) := by
          push_cast
          ring
        rw [List.append_assoc, hx]
      · have hcount : (liftR s st.yPrev cp + (rowsYsFrom s cp rest).length) * numCols.toNat
            = liftR s st.yPrev cp * numCols.toNat
              + (rowsYsFrom s cp rest).length * numCols.toNat := by
          ring
        rw [hcount, ← gridQuads_append, List.append_assoc]

/-- Master closed form of `__descritize`: when the mesh size is nonzero and
the rounded column count is at least one, the generator succeeds and
produces exactly the row-major grid of nodes over `wallRowYs`, and one
quadrilateral per unit cell with consecutive ids. -/
theorem descritizeD_eq (d : List ℚ → List ℚ) (w h s t e nu : ℚ) (loads : List Load)
    (hs : ¬ s = 0) (hC : 1 ≤ pyRound (w / s)) :
    descritizeD d w h s t e nu loads = .ok
      ( gridNodes (pyRound (w / s)).toNat (w / ((pyRound (w / s) : ℤ) : ℚ)) 1
          (wallRowYs d h s loads)
      , gridQuads (pyRound (w / s)) t e nu 1
          ((rowsYsFrom s 0 ((controlPointsD d h loads).drop 1)).length
            * (pyRound (w / s)).toNat) ) := by
  have h0 : ¬ pyRound (w / s) = 0 := by omega
  have hCsucc : (pyRound (w / s) + 1).toNat = (pyRound (w / s)).toNat + 1 := by omega
  simp only [descritizeD]
  rw [if_neg hs, if_neg h0, hCsucc,
    foldl_emit_row (w / ((pyRound (w / s) : ℤ) : ℚ)) 0 (pyRound (w / s)).toNat 1 [],
    liftsFold_eq (pyRound (w / s)) hC (w / ((pyRound (w / s) : ℤ) : ℚ)) s t e nu
      ((controlPointsD d h loads).drop 1)]
  rw [wallRowYs, gridNodes_cons]
  have hstart : (1 : ℤ) + (((pyRound (w / s)).toNat + 1 : ℕ) : ℤ)
      = 1 + (((pyRound (w / s)).toNat : ℤ) + 1) := by
    push_cast
    ring
  simp only [Except.ok.injEq, Prod.mk.injEq]
  refine ⟨?_, ?_⟩
  · show ([] ++ rowNodes _ _ 1 0) ++ _ = _
    rw [List.nil_append, hstart]
  · show [] ++ _ = _
    rw [List.nil_append]

/-! ## Index computations -/

theorem intTrunc_natCast_div (k c : ℕ) :
    intTrunc ((k : ℚ) / (c : ℚ)) = ((k / c : ℕ) : ℤ) := by
  rw [intTrunc, if_pos (by positivity)]
  have h := Rat.floor_intCast_div_natCast (k : ℤ) c
  rw [show (((k : ℤ)) : ℚ) = ((k : ℕ) : ℚ) by push_cast; ring] at h
  rw [h]
  exact_mod_cast (Int.ofNat_ediv k c).symm

theorem gridQuads_getElem (numCols : ℤ) (t e nu : ℚ) (startId : ℤ) (count k : ℕ)
    (hk : k < count) :
    (gridQuads numCols t e nu startId count)[k]?
      = some (quadFromId numCols t e nu (startId + (k : ℤ))) := by
  rw [gridQuads, List.getElem?_map, List.getElem?_range hk]
  rfl

theorem rowNodes_getElem (c : ℕ) (plW : ℚ) (startId : ℤ) (yr : ℚ) (i : ℕ)
    (hi : i < c + 1) :
    (rowNodes c plW startId yr)[i]?
      = some ⟨startId + (i : ℤ), (i : ℚ) * plW, yr, 0,
          false, false, false, false, false, false⟩ := by
  rw [rowNodes, List.getElem?_map, List.getElem?_range hi]
  rfl

theorem rowNodes_length (c : ℕ) (plW : ℚ) (startId : ℤ) (yr : ℚ) :
    (rowNodes c plW startId yr).length = c + 1 := by
  rw [rowNodes, List.length_map, List.length_range]

theorem gridNodes_getElem (c : ℕ) (plW : ℚ) (rys : List ℚ) :
    ∀ (r : ℕ) (startId : ℤ) (yr : ℚ), rys[r]? = some yr → ∀ i : ℕ, i < c + 1 →
      (gridNodes c plW startId rys)[r * (c + 1) + i]?
        = some ⟨startId + ((r * (c + 1) + i : ℕ) : ℤ), (i : ℚ) * plW, yr, 0,
            false, false, false, false, false, false⟩ := by
  induction rys with
  | nil => intro r startId yr hry; simp at hry
  | cons y rest ih =>
      intro r startId yr hry i hi
      cases r with
      | zero =>
          have hy : y = yr := by simpa using hry
          subst hy
          rw [gridNodes_cons]
          rw [List.getElem?_append_left (by rw [rowNodes_length]; omega)]
          have hidx : 0 * (c + 1) + i = i := by omega
          rw [hidx, rowNodes_getElem c plW startId y i hi]
      | succ r' =>
          simp only [Nat.succ_eq_add_one] at *
          rw [List.getElem?_cons_succ] at hry
          have hmul : (r' + 1) * (c + 1) = r' * (c + 1) + (c + 1) := by ring
          rw [gridNodes_cons]
          rw [List.getElem?_append_right (by rw [rowNodes_length]; omega)]
          rw [rowNodes_length]
          have hidx : (r' + 1) * (c + 1) + i - (c + 1) = r' * (c + 1) + i := by omega
          rw [hidx, ih r' (startId + ((c : ℤ) + 1)) yr hry i hi]
          have hid : startId + ((c : ℤ) + 1) + ((r' * (c + 1) + i : ℕ) : ℤ)
              = startId + (((r' + 1) * (c + 1) + i : ℕ) : ℤ) := by
            push_cast
            ring
          rw [hid]

/-! ## Control-point facts -/

theorem validDedup_dedupPy : validDedup dedupPy := by
  intro l
  exact ⟨List.nodup_dedup l, fun a => List.mem_dedup⟩

theorem validDedup_dedupRev : validDedup dedupRev := by
  intro l
  refine ⟨List.nodup_dedup l.reverse, fun a => ?_⟩
  rw [dedupRev, List.mem_dedup, List.mem_reverse]

theorem controlPointsD_mem (d : List ℚ → List ℚ) (hd : validDedup d) (height : ℚ)
    (loads : List Load) :
    ∀ (acc : List ℚ) (a : ℚ),
      (a ∈ loads.foldl
        (fun acc ld => ((d (acc ++ [ld.yBot, ld.yTop])).insertionSort (· ≤ ·))) acc)
      ↔ (a ∈ acc ∨ ∃ l ∈ loads, a = l.yBot ∨ a = l.yTop) := by
  induction loads with
  | nil => intro acc a; simp
  | cons ld rest ih =>
      intro acc a
      rw [List.foldl_cons, ih]
      rw [List.mem_insertionSort, (hd (acc ++ [ld.yBot, ld.yTop])).2 a]
      simp only [List.mem_append, List.mem_cons, List.not_mem_nil, or_false]
      constructor
      · rintro ((h | h) | ⟨l, hl, h⟩)
        · exact Or.inl h
        · exact Or.inr ⟨ld, Or.inl rfl, h⟩
        · exact Or.inr ⟨l, Or.inr hl, h⟩
      · rintro (h | ⟨l, rfl | hmem, h⟩)
        · exact Or.inl (Or.inl h)
        · exact Or.inl (Or.inr h)
        · exact Or.inr ⟨l, hmem, h⟩

theorem controlPointsD_foldl_sorted (d : List ℚ → List ℚ) (loads : List Load) :
    ∀ acc : List ℚ, loads ≠ [] →
      List.Sorted (· ≤ ·)
        (loads.foldl
          (fun acc ld => ((d (acc ++ [ld.yBot, ld.yTop])).insertionSort (· ≤ ·))) acc) := by
  induction loads with
  | nil => intro acc hne; exact absurd rfl hne
  | cons ld rest ih =>
      intro acc _
      rw [List.foldl_cons]
      rcases eq_or_ne rest [] with hr | hr
      · subst hr
        exact List.sorted_insertionSort _ _
      · exact ih _ hr

theorem controlPointsD_sorted (d : List ℚ → List ℚ) (height : ℚ) (loads : List Load)
    (hne : loads ≠ []) :
    List.Sorted (· ≤ ·) (controlPointsD d height loads) :=
  controlPointsD_foldl_sorted d loads [0, height] hne

/-- Two well-behaved `list(set(...))` realizations give the same control
points: the subsequent sort cancels the arbitrary set-iteration order. -/
theorem controlPointsD_valid_eq (d₁ d₂ : List ℚ → List ℚ) (h₁ : validDedup d₁)
    (h₂ : validDedup d₂) (height : ℚ) (loads : List Load) :
    controlPointsD d₁ height loads = controlPointsD d₂ height loads := by
  have hstep : ∀ (acc : List ℚ) (ld : Load),
      (d₁ (acc ++ [ld.yBot, ld.yTop])).insertionSort (· ≤ ·)
        = (d₂ (acc ++ [ld.yBot, ld.yTop])).insertionSort (· ≤ ·) := by
    intro acc ld
    have hperm : (d₁ (acc ++ [ld.yBot, ld.yTop])).Perm (d₂ (acc ++ [ld.yBot, ld.yTop])) :=
      (List.perm_ext_iff_of_nodup (h₁ _).1 (h₂ _).1).mpr
        (fun a => by rw [(h₁ _).2 a, (h₂ _).2 a])
    exact List.eq_of_perm_of_sorted
      ((List.perm_insertionSort _ _).trans
        (hperm.trans (List.perm_insertionSort _ _).symm))
      (List.sorted_insertionSort _ _) (List.sorted_insertionSort _ _)
  have hfold : ∀ (loads' : List Load) (acc : List ℚ),
      loads'.foldl
          (fun acc ld => ((d₁ (acc ++ [ld.yBot, ld.yTop])).insertionSort (· ≤ ·))) acc
        = loads'.foldl
            (fun acc ld => ((d₂ (acc ++ [ld.yBot, ld.yTop])).insertionSort (· ≤ ·))) acc := by
    intro loads'
    induction loads' with
    | nil => intro acc; rfl
    | cons ld rest ih =>
        intro acc
        rw [List.foldl_cons, List.foldl_cons, hstep acc ld]
        exact ih _
  rw [controlPointsD, controlPointsD]
  exact hfold loads [0, height]

theorem wallRowYs_valid_eq (d₁ d₂ : List ℚ → List ℚ) (h₁ : validDedup d₁)
    (h₂ : validDedup d₂) (height meshSize : ℚ) (loads : List Load) :
    wallRowYs d₁ height meshSize loads = wallRowYs d₂ height meshSize loads := by
  rw [wallRowYs, wallRowYs, controlPointsD_valid_eq d₁ d₂ h₁ h₂ height loads]

/-- Every control point after the first becomes the exact top row height of
its lift (`num_rows * (h / num_rows) = h` in exact arithmetic). -/
theorem mem_rowsYsFrom (s : ℚ) (cps : List ℚ) :
    ∀ (yPrev b : ℚ), b ∈ cps → b ∈ rowsYsFrom s yPrev cps := by
  induction cps with
  | nil => intro _ _ h; simp at h
  | cons cp rest ih =>
      intro yPrev b hb
      simp only [rowsYsFrom]
      rcases List.mem_cons.mp hb with rfl | hmem
      · refine List.mem_append_left _ ?_
        rw [liftYs]
        have hR : 1 ≤ liftR s yPrev b := liftR_pos s yPrev b
        refine List.mem_map.mpr ⟨liftR s yPrev b - 1, List.mem_range.mpr (by omega), ?_⟩
        have hcast : ((liftR s yPrev b - 1 : ℕ) : ℚ) + 1 = ((liftR s yPrev b : ℕ) : ℚ) := by
          have h1 : ((liftR s yPrev b - 1 : ℕ) : ℚ) = ((liftR s yPrev b : ℕ) : ℚ) - 1 := by
            push_cast [hR]
            ring
          rw [h1]
          ring
        rw [hcast]
        have hRne : ((liftR s yPrev b : ℕ) : ℚ) ≠ 0 := by
          have : (0 : ℚ) < ((liftR s yPrev b : ℕ) : ℚ) := by
            exact_mod_cast Nat.lt_of_lt_of_le Nat.zero_lt_one hR
          exact ne_of_gt this
        field_simp
      · exact List.mem_append_right _ (ih cp b hmem)

theorem gridNodes_exists_y (c : ℕ) (plW : ℚ) (rys : List ℚ) :
    ∀ (startId : ℤ) (b : ℚ), b ∈ rys →
      ∃ nd ∈ gridNodes c plW startId rys, nd.y = b := by
  induction rys with
  | nil => intro _ _ h; simp at h
  | cons y rest ih =>
      intro startId b hb
      rw [gridNodes_cons]
      rcases List.mem_cons.mp hb with rfl | hmem
      · refine ⟨⟨startId + ((0 : ℕ) : ℤ), ((0 : ℕ) : ℚ) * plW, b, 0,
          false, false, false, false, false, false⟩, ?_, rfl⟩
        refine List.mem_append_left _ ?_
        rw [rowNodes]
        exact List.mem_map.mpr ⟨0, List.mem_range.mpr (by omega), rfl⟩
      · obtain ⟨nd, hnd, hy⟩ := ih (startId + ((c : ℤ) + 1)) b hmem
        exact ⟨nd, List.mem_append_right _ hnd, hy⟩

/-- A sorted control-point list containing `0`, all of whose members are
nonnegative, starts with `0`. -/
theorem sorted_head_zero (l : List ℚ) (hs : List.Sorted (· ≤ ·) l) (h0 : (0 : ℚ) ∈ l)
    (hnn : ∀ a ∈ l, 0 ≤ a) : ∃ tail, l = 0 :: tail := by
  cases l with
  | nil => simp at h0
  | cons x tail =>
      have hx0 : 0 ≤ x := hnn x (List.mem_cons_self x tail)
      have hx0' : x ≤ 0 := by
        rcases List.mem_cons.mp h0 with h | h
        · exact le_of_eq h.symm
        · exact (List.sorted_cons.mp hs).1 0 h
      have hx : x = 0 := le_antisymm hx0' hx0
      subst hx
      exact ⟨tail, rfl⟩

/-! ## Claim theorems -/

/-- C3: for every argument tuple, constructing a `SteelSection` raises a
`TypeError` before any attribute is assigned — `SteelSection.__init__`
forwards seven positional arguments (including `material_name`) to
`Section.__init__`, which binds only six — so the constructor fails for
every continuation of the body, regardless of the model's materials, and
no `SteelSection` instance can ever be constructed. -/
theorem C3_steelSection_init_typeError {α : Type}
    (rest : SectionAttrs → Except PyErr α)
    (model name A Iy Iz J Zy Zz materialName : PyVal) :
    steelSectionInitWith rest model name A Iy Iz J Zy Zz materialName
      = .error .typeError := rfl

/-- C1 (failing input): a quad with corner heights `0, 0, 2, 2`
(centroid `Y = 1`) under two overlapping constant bands of pressures
`p1 = 1` and `p2 = 2` gets TWO entries appended to its pressure list —
the running totals `1` and `3`, one per containing band — not the single
entry `3 = p1 + p2` that the claim describes (the append sits inside the
per-band loop). -/
theorem C1_running_total_appended_per_band :
    distributeQuadPressure [⟨0, 2, 1, 1⟩, ⟨0, 2, 2, 2⟩] (centroidY 0 0 2 2)
        = [(1, caseName), (3, caseName)]
      ∧ [((1 : ℚ), caseName), (3, caseName)] ≠ [((3 : ℚ), caseName)] := by
  constructor
  · norm_num [distributeQuadPressure, centroidY, caseName]
  · decide

/-- C4 (counterexample): `height = 0` is degenerate geometry, yet
`__descritize` (width `2`, mesh size `1`) raises nothing — there is no
`InvalidGeometry` validation anywhere in the code — and creates six nodes
and two zero-height quads, mutating the model. -/
theorem C4_counterexample_height_zero_creates_nodes :
    (descritize 2 0 1 1 1 1 []).map (fun p => (p.1.length, p.2.length))
      = .ok (6, 2) := by
  norm_num [descritize, descritizeD, pyRound, controlPointsD, liftStep, intTrunc]
  simp [List.range_succ]
  norm_num [Except.map]

/-- C4 (amended): mesh generation performs no geometry validation.  There
is no `InvalidGeometry` error: whenever the mesh size is nonzero and
`round(width/mesh_size) ≥ 1`, the call succeeds for every width, height
and load list (degenerate ones included), and e.g. `height = 0` silently
creates 6 nodes and 2 quads; the only failure mode is a
`ZeroDivisionError` when `mesh_size = 0` or `round(width/mesh_size) = 0`. -/
theorem C4_amended_no_validation :
    (∀ (w h s t e nu : ℚ) (loads : List Load), ¬ s = 0 → 1 ≤ pyRound (w / s) →
      ∃ p, descritizeD dedupPy w h s t e nu loads = .ok p)
    ∧ (descritize 2 0 1 1 1 1 []).map (fun p => (p.1.length, p.2.length)) = .ok (6, 2) := by
  constructor
  · intro w h s t e nu loads hs hC
    exact ⟨_, descritizeD_eq dedupPy w h s t e nu loads hs hC⟩
  · norm_num [descritize, descritizeD, pyRound, controlPointsD, liftStep, intTrunc]
    simp [List.range_succ]
    norm_num [Except.map]

theorem C4_amended_no_validation_witness :
    (¬ (1 : ℚ) = 0) ∧ 1 ≤ pyRound ((1 : ℚ) / 1)
      ∧ (∃ p, descritizeD dedupPy 1 1 1 1 1 1 [] = .ok p) :=
  ⟨by norm_num, by norm_num [pyRound],
    C4_amended_no_validation.1 1 1 1 1 1 1 [] (by norm_num) (by norm_num [pyRound])⟩

/-- C5 (counterexample): at `width = 2/5`, `height = 1`,
`mesh_size = 1`, the claim (with its clamped column count) predicts a
`(1+1)×(1+1) = 4`-node mesh, but the code computes
`num_cols = round(0.4) = 0` — there is no clamping — and raises
`ZeroDivisionError` at `width/num_cols`, producing no mesh at all. -/
theorem C5_counterexample_no_clamp :
    descritize (2/5) 1 1 1 1 1 [] = .error .zeroDivision
    ∧ ((max 1 (pyRound ((2/5 : ℚ) / 1)) + 1) * (max 1 (pyRound ((1 : ℚ) / 1)) + 1) : ℤ)
        = 4 := by
  constructor
  · norm_num [descritize, descritizeD, pyRound]
  · norm_num [pyRound]

/-- C5 (amended): for positive inputs and no load bands, with the
additional hypothesis that `round(width/mesh_size) ≥ 1` (the code does
NOT clamp the column count; `round(width/mesh_size) = 0` raises
`ZeroDivisionError` instead), the mesh has exactly
`(cols+1)*(rows+1)` nodes and `cols*rows` quads, where
`cols = round(width/mesh_size)` (unclamped) and
`rows = max(1, round(height/mesh_size))`. -/
theorem C5_amended_mesh_counts (w h s t e nu : ℚ) (hw : 0 < w) (hh : 0 < h)
    (hs : 0 < s) (hC : 1 ≤ pyRound (w / s)) :
    ∃ ns qs, descritize w h s t e nu [] = .ok (ns, qs)
      ∧ (ns.length : ℤ) = (pyRound (w / s) + 1) * (max 1 (pyRound (h / s)) + 1)
      ∧ (qs.length : ℤ) = pyRound (w / s) * max 1 (pyRound (h / s)) := by
  have hs0 : ¬ s = 0 := by positivity
  refine ⟨_, _, descritizeD_eq dedupPy w h s t e nu [] hs0 hC, ?_, ?_⟩
  · rw [gridNodes_length]
    have hrys : wallRowYs dedupPy h s [] = 0 :: rowsYsFrom s 0 [h] := rfl
    rw [hrys]
    simp only [rowsYsFrom, List.append_nil, List.length_cons, liftYs_length]
    have hcast := toNat_max_one_cast (pyRound ((h - 0) / s))
    have hcast2 : ((pyRound (w / s)).toNat : ℤ) = pyRound (w / s) :=
      Int.toNat_of_nonneg (by omega)
    rw [liftR]
    push_cast [hcast, hcast2]
    rw [sub_zero]
    ring
  · rw [gridQuads_length]
    have hrys : (controlPointsD dedupPy h []).drop 1 = [h] := rfl
    rw [hrys]
    simp only [rowsYsFrom, List.append_nil, liftYs_length]
    have hcast := toNat_max_one_cast (pyRound ((h - 0) / s))
    have hcast2 : ((pyRound (w / s)).toNat : ℤ) = pyRound (w / s) :=
      Int.toNat_of_nonneg (by omega)
    rw [liftR]
    push_cast [hcast, hcast2]
    rw [sub_zero]
    ring

theorem C5_amended_mesh_counts_witness :
    (0 : ℚ) < 2 ∧ (0 : ℚ) < 3 ∧ (0 : ℚ) < 1 ∧ 1 ≤ pyRound ((2 : ℚ) / 1)
    ∧ ∃ ns qs, descritize 2 3 1 1 1 1 [] = .ok (ns, qs)
      ∧ (ns.length : ℤ) = (pyRound ((2 : ℚ) / 1) + 1) * (max 1 (pyRound ((3 : ℚ) / 1)) + 1)
      ∧ (qs.length : ℤ) = pyRound ((2 : ℚ) / 1) * max 1 (pyRound ((3 : ℚ) / 1)) :=
  ⟨by norm_num, by norm_num, by norm_num, by norm_num [pyRound],
    C5_amended_mesh_counts 2 3 1 1 1 1 (by norm_num) (by norm_num) (by norm_num)
      (by norm_num [pyRound])⟩

/-- C10: mesh generation is deterministic and independent of the
incidental iteration order of the `set` used for control-point
deduplication: any two well-behaved realizations of `list(set(...))`
yield identical node keys, node positions and element connectivity
(the sort that immediately follows cancels the set order; everything
else is a pure function of the inputs). -/
theorem C10_dedup_order_independent (w h s t e nu : ℚ) (loads : List Load)
    (d₁ d₂ : List ℚ → List ℚ) (h₁ : validDedup d₁) (h₂ : validDedup d₂) :
    descritizeD d₁ w h s t e nu loads = descritizeD d₂ w h s t e nu loads := by
  simp only [descritizeD]
  rw [controlPointsD_valid_eq d₁ d₂ h₁ h₂ h loads]

theorem C10_dedup_order_independent_witness :
    validDedup dedupPy ∧ validDedup dedupRev
    ∧ descritizeD dedupPy 1 2 1 1 1 1 [⟨0, 1, 2, 3⟩]
        = descritizeD dedupRev 1 2 1 1 1 1 [⟨0, 1, 2, 3⟩] :=
  ⟨validDedup_dedupPy, validDedup_dedupRev,
    C10_dedup_order_independent 1 2 1 1 1 1 [⟨0, 1, 2, 3⟩] dedupPy dedupRev
      validDedup_dedupPy validDedup_dedupRev⟩

/-- C9: `__define_supports` is an `if/elif` chain, so a node on several
edges (a corner) receives exactly the restraint set of the first matching
edge in the order left, right, bottom, top — never a union; and the
policies act as: `Free` (or any unrecognized value) leaves the restraint
flags unchanged, `Pinned` sets exactly the three translations, and
`Fixed` sets the three translations and the two bending rotations while
leaving the drilling rotation `RZ` untouched (hence unrestrained for
mesh-created nodes). -/
theorem C9_edge_precedence_and_policies (L R B T : String) (w h : ℚ) (n : PyNode) :
    ((npIsClose n.x 0 = true →
        defineSupportsOne L R B T w h n = applyEdgePolicy L n)
      ∧ (npIsClose n.x 0 = false → npIsClose n.x w = true →
          defineSupportsOne L R B T w h n = applyEdgePolicy R n)
      ∧ (npIsClose n.x 0 = false → npIsClose n.x w = false → npIsClose n.y 0 = true →
          defineSupportsOne L R B T w h n = applyEdgePolicy B n)
      ∧ (npIsClose n.x 0 = false → npIsClose n.x w = false → npIsClose n.y 0 = false →
          npIsClose n.y h = true →
          defineSupportsOne L R B T w h n = applyEdgePolicy T n))
    ∧ applyEdgePolicy ("Free") n = n
    ∧ applyEdgePolicy ("Pinned") n = { n with sDX := true, sDY := true, sDZ := true }
    ∧ applyEdgePolicy ("Fixed") n
        = { n with sDX := true, sDY := true, sDZ := true, sRX := true, sRY := true }
    ∧ (applyEdgePolicy ("Fixed") n).sRZ = n.sRZ := by
  refine ⟨⟨?_, ?_, ?_, ?_⟩, ?_, ?_, ?_, ?_⟩
  · intro h1
    simp [defineSupportsOne, h1]
  · intro h1 h2
    simp [defineSupportsOne, h1, h2]
  · intro h1 h2 h3
    simp [defineSupportsOne, h1, h2, h3]
  · intro h1 h2 h3 h4
    simp [defineSupportsOne, h1, h2, h3, h4]
  · simp [applyEdgePolicy]
  · simp [applyEdgePolicy]
  · simp [applyEdgePolicy]
  · simp [applyEdgePolicy]

theorem C9_edge_precedence_and_policies_witness :
    npIsClose (0 : ℚ) 0 = true
    ∧ defineSupportsOne ("Pinned") ("Fixed") ("Fixed") ("Fixed") 10 10
        ⟨1, 0, 0, 0, false, false, false, false, false, false⟩
      = applyEdgePolicy ("Pinned") ⟨1, 0, 0, 0, false, false, false, false, false, false⟩ :=
  ⟨by norm_num [npIsClose],
    (C9_edge_precedence_and_policies ("Pinned") ("Fixed") ("Fixed") ("Fixed") 10 10
      ⟨1, 0, 0, 0, false, false, false, false, false, false⟩).1.1
      (by norm_num [npIsClose])⟩

/-- The method `analyze` never inspects the `__analyzed` flag: running it on a wall
with the flag overwritten is the same computation, with the flag carried
through untouched. -/
theorem analyze_setAnalyzed (w : RectWall) (b : Bool) :
    analyze (setAnalyzed w b) = (analyze w).map (fun r => setAnalyzed r b) := by
  simp only [analyze, setAnalyzed]
  cases hd : descritize w.width w.height w.meshSize w.thickness w.eMod w.nu w.loads with
  | error e => rfl
  | ok p => rfl

/-- C6 (counterexample): the claim that "a dirty flag maintained by the
mutators gates whether `analyze()` reuses cached results versus
recomputes them" is false — there is NO wall state on which the flag
changes what `analyze` computes: `analyze` never reads `__analyzed`
(and never resets it to `True`); it re-meshes and re-solves
unconditionally. -/
theorem C6_counterexample_flag_never_gates : ¬ analyzeUsesFlag := by
  rintro ⟨w, hne⟩
  apply hne
  rw [obsE, obsE, analyze_setAnalyzed, analyze_setAnalyzed]
  cases analyze w with
  | error e => rfl
  | ok r => rfl

/-- C6 (amended): re-running `analyze()` recomputes everything from the
current inputs unconditionally — it re-runs `__descritize` (appending a
freshly generated mesh to the model) and re-applies supports and
pressures on every call — while the `__analyzed` flag is write-only
state: `add_load` and `clear_loads` set it to `False`, but `analyze`
neither reads it (its observable outcome is flag-independent) nor sets
it, so no caching or gating exists. -/
theorem C6_amended_analyze_recomputes_unconditionally :
    (∀ (w : RectWall) (b : Bool), obsE (analyze (setAnalyzed w b)) = obsE (analyze w))
    ∧ (∀ w : RectWall, (analyze w).map RectWall.femQuads
        = (descritize w.width w.height w.meshSize w.thickness w.eMod w.nu w.loads).map
            (fun p => w.femQuads ++ p.2))
    ∧ (∀ w : RectWall, (analyze w).map RectWall.analyzed
        = (analyze w).map (fun _ => w.analyzed))
    ∧ (∀ (w : RectWall) (yBot yTop pBot pTop : ℚ),
        (addLoad w yBot yTop pBot pTop).analyzed = false
          ∧ (addLoad w yBot yTop pBot pTop).loads = w.loads ++ [⟨yBot, yTop, pBot, pTop⟩])
    ∧ (∀ w : RectWall, (clearLoads w).analyzed = false ∧ (clearLoads w).loads = []
        ∧ (clearLoads w).pressures = []) := by
  refine ⟨?_, ?_, ?_, ?_, ?_⟩
  · intro w b
    rw [obsE, obsE, analyze_setAnalyzed]
    cases analyze w with
    | error e => rfl
    | ok r => rfl
  · intro w
    simp only [analyze]
    cases hd : descritize w.width w.height w.meshSize w.thickness w.eMod w.nu w.loads with
    | error e => rfl
    | ok p => rfl
  · intro w
    simp only [analyze]
    cases hd : descritize w.width w.height w.meshSize w.thickness w.eMod w.nu w.loads with
    | error e => rfl
    | ok p => rfl
  · intro w yBot yTop pBot pTop
    exact ⟨rfl, rfl⟩
  · intro w
    exact ⟨rfl, rfl, rfl⟩

/-- With a nonnegative wall height and nonnegative band boundaries, every
band boundary is a member of the generated row-height list: boundaries
are control points, the control list is sorted with head `0` (the bottom
row), and every later control point is reproduced exactly as the top row
of its lift. -/
theorem boundary_mem_wallRowYs (h s : ℚ) (loads : List Load) (hh : 0 ≤ h)
    (hnn : ∀ l ∈ loads, 0 ≤ l.yBot ∧ 0 ≤ l.yTop)
    (b : ℚ) (hbl : ∃ l ∈ loads, b = l.yBot ∨ b = l.yTop) :
    b ∈ wallRowYs dedupPy h s loads := by
  obtain ⟨l, hl, hb⟩ := hbl
  have hne : loads ≠ [] := by rintro rfl; exact absurd hl (List.not_mem_nil l)
  have hmem_iff := controlPointsD_mem dedupPy validDedup_dedupPy h loads [0, h]
  have hbc : b ∈ controlPointsD dedupPy h loads := by
    rw [controlPointsD]
    exact (hmem_iff b).mpr (Or.inr ⟨l, hl, hb⟩)
  have h0c : (0 : ℚ) ∈ controlPointsD dedupPy h loads := by
    rw [controlPointsD]
    exact (hmem_iff 0).mpr (Or.inl (by simp))
  have hall : ∀ a ∈ controlPointsD dedupPy h loads, 0 ≤ a := by
    intro a ha
    rw [controlPointsD] at ha
    rcases (hmem_iff a).mp ha with hacc | ⟨l', hl', h'⟩
    · rcases List.mem_cons.mp hacc with rfl | hacc'
      · exact le_refl 0
      · rcases List.mem_singleton.mp hacc' with rfl
        exact hh
    · rcases h' with rfl | rfl
      · exact (hnn l' hl').1
      · exact (hnn l' hl').2
  obtain ⟨tail, htail⟩ := sorted_head_zero (controlPointsD dedupPy h loads)
    (controlPointsD_sorted dedupPy h loads hne) h0c hall
  rw [wallRowYs, htail]
  rcases List.mem_cons.mp (htail ▸ hbc) with rfl | hbt
  · exact List.mem_cons_self 0 _
  · exact List.mem_cons_of_mem 0 (mem_rowsYsFrom s tail 0 b hbt)

/-- C7 (counterexample): with a band whose lower boundary is `-1`, the
generated mesh's node Y-coordinates are `[0,0,0,0,1,1,2,2]` — the
boundary `-1` never appears as a row height (the sorted control list
starts with `-1`, which the generator's `next(iter_y)` skips, leaving
`y_prev = 0`), so the claim fails for bands with negative boundaries. -/
theorem C7_counterexample_negative_boundary :
    (descritize 1 2 1 1 1 1 [⟨-1, 1, 1, 1⟩]).map (fun p => p.1.map PyNode.y)
        = .ok [0, 0, 0, 0, 1, 1, 2, 2]
    ∧ (-1 : ℚ) ∉ [(0 : ℚ), 0, 0, 0, 1, 1, 2, 2] := by
  constructor
  · norm_num [descritize, descritizeD, pyRound, controlPointsD, liftStep, intTrunc,
      List.dedup_cons_of_mem, List.dedup_cons_of_not_mem, List.insertionSort,
      List.orderedInsert]
    simp [List.range_succ]
    norm_num [Except.map]
  · norm_num

/-- C7 (amended): for every set of load bands whose boundaries are all
nonnegative (and a nonnegative height, nonzero mesh size and at least one
column), every band boundary value appears as the Y-coordinate of some
generated node; a band boundary below `0` is silently skipped by the
generator and never appears (see the counterexample). -/
theorem C7_amended_boundaries_become_rows (w h s t e nu : ℚ) (loads : List Load)
    (ns : List PyNode) (qs : List PyQuad)
    (hs : ¬ s = 0) (hC : 1 ≤ pyRound (w / s)) (hh : 0 ≤ h)
    (hnn : ∀ l ∈ loads, 0 ≤ l.yBot ∧ 0 ≤ l.yTop)
    (hok : descritize w h s t e nu loads = .ok (ns, qs)) :
    ∀ l ∈ loads, (∃ nd ∈ ns, nd.y = l.yBot) ∧ (∃ nd ∈ ns, nd.y = l.yTop) := by
  intro l hl
  rw [descritize, descritizeD_eq dedupPy w h s t e nu loads hs hC] at hok
  simp only [Except.ok.injEq, Prod.mk.injEq] at hok
  have hns : ns = gridNodes (pyRound (w / s)).toNat (w / ((pyRound (w / s) : ℤ) : ℚ)) 1
      (wallRowYs dedupPy h s loads) := hok.1.symm
  subst hns
  constructor
  · exact gridNodes_exists_y _ _ _ 1 l.yBot
      (boundary_mem_wallRowYs h s loads hh hnn l.yBot ⟨l, hl, Or.inl rfl⟩)
  · exact gridNodes_exists_y _ _ _ 1 l.yTop
      (boundary_mem_wallRowYs h s loads hh hnn l.yTop ⟨l, hl, Or.inr rfl⟩)

theorem C7_amended_boundaries_become_rows_witness :
    (¬ (1 : ℚ) = 0) ∧ 1 ≤ pyRound ((1 : ℚ) / 1) ∧ (0 : ℚ) ≤ 1
    ∧ (∀ l ∈ [(⟨0, 1, 5, 5⟩ : Load)], 0 ≤ l.yBot ∧ 0 ≤ l.yTop)
    ∧ descritize 1 1 1 1 1 1 [⟨0, 1, 5, 5⟩]
        = .ok ([⟨1, 0, 0, 0, false, false, false, false, false, false⟩,
                ⟨2, 1, 0, 0, false, false, false, false, false, false⟩,
                ⟨3, 0, 1, 0, false, false, false, false, false, false⟩,
                ⟨4, 1, 1, 0, false, false, false, false, false, false⟩],
               [⟨1, 1, 2, 4, 3, 1, 1, 1⟩])
    ∧ ∀ l ∈ [(⟨0, 1, 5, 5⟩ : Load)],
        (∃ nd ∈ [(⟨1, 0, 0, 0, false, false, false, false, false, false⟩ : PyNode),
                 ⟨2, 1, 0, 0, false, false, false, false, false, false⟩,
                 ⟨3, 0, 1, 0, false, false, false, false, false, false⟩,
                 ⟨4, 1, 1, 0, false, false, false, false, false, false⟩], nd.y = l.yBot)
        ∧ (∃ nd ∈ [(⟨1, 0, 0, 0, false, false, false, false, false, false⟩ : PyNode),
                   ⟨2, 1, 0, 0, false, false, false, false, false, false⟩,
                   ⟨3, 0, 1, 0, false, false, false, false, false, false⟩,
                   ⟨4, 1, 1, 0, false, false, false, false, false, false⟩], nd.y = l.yTop) := by
  have hok : descritize 1 1 1 1 1 1 [⟨0, 1, 5, 5⟩]
      = .ok ([⟨1, 0, 0, 0, false, false, false, false, false, false⟩,
              ⟨2, 1, 0, 0, false, false, false, false, false, false⟩,
              ⟨3, 0, 1, 0, false, false, false, false, false, false⟩,
              ⟨4, 1, 1, 0, false, false, false, false, false, false⟩],
             [⟨1, 1, 2, 4, 3, 1, 1, 1⟩]) := by
    norm_num [descritize, descritizeD, pyRound, controlPointsD, liftStep, intTrunc,
      List.dedup_cons_of_mem, List.dedup_cons_of_not_mem, List.insertionSort,
      List.orderedInsert]
    simp [List.range_succ]
  refine ⟨by norm_num, by norm_num [pyRound], by norm_num, by norm_num, hok, ?_⟩
  exact C7_amended_boundaries_become_rows 1 1 1 1 1 1 [⟨0, 1, 5, 5⟩] _ _
    (by norm_num) (by norm_num [pyRound]) (by norm_num) (by norm_num) hok

/-- C8: in every generated mesh, the quad at traversal index `k`
(0-based; grid row `r = k / C`, column `c = k % C`, counted across all
lifts) has key `k + 1` — keys increment monotonically in
lift-row-column traversal order — and the index formula
`ni = pl_id + floor((pl_id - 1)/num_cols)`, `nj = ni + 1`,
`nm = nj + num_cols + 1`, `nn = nm - 1` selects exactly the bottom-left,
bottom-right, top-right and top-left nodes of its unit cell under the
row-major numbering: corner `i` is the node at position
`(c * col_width, y_r)`, `j` at `((c+1) * col_width, y_r)`, `m` at
`((c+1) * col_width, y_{r+1})` and `n` at `(c * col_width, y_{r+1})`,
where `y_r` is the `r`-th generated row height — for every lift,
including lifts with differing row counts (the row list `wallRowYs` is
arbitrary here). -/
theorem C8_unit_cell_connectivity (w h s t e nu : ℚ) (loads : List Load)
    (ns : List PyNode) (qs : List PyQuad) (k C r c : ℕ) (plW : ℚ)
    (hs : ¬ s = 0) (hCpos : 1 ≤ pyRound (w / s))
    (hok : descritize w h s t e nu loads = .ok (ns, qs))
    (hk : k < qs.length)
    (hC : C = (pyRound (w / s)).toNat) (hr : r = k / C) (hc : c = k % C)
    (hplW : plW = w / ((pyRound (w / s) : ℤ) : ℚ)) :
    ∃ (yr yr1 : ℚ) (q : PyQuad),
      (wallRowYs dedupPy h s loads)[r]? = some yr
      ∧ (wallRowYs dedupPy h s loads)[r + 1]? = some yr1
      ∧ qs[k]? = some q
      ∧ q.id = 1 + (k : ℤ)
      ∧ q.ni = 1 + (k : ℤ) + ((k / C : ℕ) : ℤ)
      ∧ q.nj = q.ni + 1
      ∧ q.nm = q.nj + ((C : ℤ) + 1)
      ∧ q.nn = q.nm - 1
      ∧ q.t = t ∧ q.eMod = e ∧ q.nu = nu
      ∧ q.ni = 1 + ((r * (C + 1) + c : ℕ) : ℤ)
      ∧ q.nj = 1 + ((r * (C + 1) + (c + 1) : ℕ) : ℤ)
      ∧ q.nm = 1 + (((r + 1) * (C + 1) + (c + 1) : ℕ) : ℤ)
      ∧ q.nn = 1 + (((r + 1) * (C + 1) + c : ℕ) : ℤ)
      ∧ ns[r * (C + 1) + c]?
          = some ⟨1 + ((r * (C + 1) + c : ℕ) : ℤ), (c : ℚ) * plW, yr, 0,
              false, false, false, false, false, false⟩
      ∧ ns[r * (C + 1) + (c + 1)]?
          = some ⟨1 + ((r * (C + 1) + (c + 1) : ℕ) : ℤ), ((c + 1 : ℕ) : ℚ) * plW, yr, 0,
              false, false, false, false, false, false⟩
      ∧ ns[(r + 1) * (C + 1) + (c + 1)]?
          = some ⟨1 + (((r + 1) * (C + 1) + (c + 1) : ℕ) : ℤ), ((c + 1 : ℕ) : ℚ) * plW, yr1, 0,
              false, false, false, false, false, false⟩
      ∧ ns[(r + 1) * (C + 1) + c]?
          = some ⟨1 + (((r + 1) * (C + 1) + c : ℕ) : ℤ), (c : ℚ) * plW, yr1, 0,
              false, false, false, false, false, false⟩ := by
  have hCnn : (0 : ℤ) ≤ pyRound (w / s) := by omega
  have hCeq : ((C : ℕ) : ℤ) = pyRound (w / s) := by rw [hC]; exact Int.toNat_of_nonneg hCnn
  have hC1 : 1 ≤ C := by omega
  rw [descritize, descritizeD_eq dedupPy w h s t e nu loads hs hCpos] at hok
  rw [← hC, ← hplW] at hok
  simp only [Except.ok.injEq, Prod.mk.injEq] at hok
  obtain ⟨hns, hqs⟩ := hok
  subst hns
  subst hqs
  rw [gridQuads_length] at hk
  have hab : C * r + c = k := by rw [hr, hc]; exact Nat.div_add_mod k C
  have hblt : c < C := by rw [hc]; exact Nat.mod_lt k (by omega)
  have hrlt : r < (rowsYsFrom s 0 ((controlPointsD dedupPy h loads).drop 1)).length := by
    rw [hr]
    exact (Nat.div_lt_iff_lt_mul (by omega)).mpr
      (by rw [Nat.mul_comm] at hk ⊢; exact hk)
  have hlen : (wallRowYs dedupPy h s loads).length
      = (rowsYsFrom s 0 ((controlPointsD dedupPy h loads).drop 1)).length + 1 := by
    rw [wallRowYs, List.length_cons]
  have hrb : r < (wallRowYs dedupPy h s loads).length := by omega
  have hrb1 : r + 1 < (wallRowYs dedupPy h s loads).length := by omega
  have hq := gridQuads_getElem (pyRound (w / s)) t e nu 1 _ k hk
  set q := quadFromId (pyRound (w / s)) t e nu (1 + (k : ℤ)) with hqdef
  have hni : q.ni = 1 + (k : ℤ) + ((k / C : ℕ) : ℤ) := by
    have harg : ((((1 + (k : ℤ) : ℤ)) : ℚ) - 1) / ((pyRound (w / s) : ℤ) : ℚ)
        = ((k : ℕ) : ℚ) / ((C : ℕ) : ℚ) := by
      rw [show ((pyRound (w / s) : ℤ) : ℚ) = ((C : ℕ) : ℚ) by exact_mod_cast hCeq.symm]
      push_cast
      ring
    show (1 + (k : ℤ))
        + max 0 (intTrunc ((((1 + (k : ℤ) : ℤ) : ℚ) - 1) / ((pyRound (w / s) : ℤ) : ℚ)))
      = _
    rw [harg, intTrunc_natCast_div, max_eq_right (Int.natCast_nonneg _)]
  have hnj : q.nj = q.ni + 1 := rfl
  have hnm : q.nm = q.nj + ((C : ℤ) + 1) := by
    show q.nj + (pyRound (w / s) + 1) = q.nj + ((C : ℤ) + 1)
    rw [hCeq]
  have hnn : q.nn = q.nm - 1 := rfl
  have hkdiv : ((k / C : ℕ) : ℤ) = (r : ℤ) := by rw [hr]
  refine ⟨(wallRowYs dedupPy h s loads)[r], (wallRowYs dedupPy h s loads)[r + 1], q,
    List.getElem?_eq_getElem hrb, List.getElem?_eq_getElem hrb1, hq, rfl, hni, hnj, hnm,
    hnn, rfl, rfl, rfl, ?_, ?_, ?_, ?_, ?_, ?_, ?_, ?_⟩
  · rw [hni, hkdiv, ← hab]
    push_cast
    ring
  · rw [hnj, hni, hkdiv, ← hab]
    push_cast
    ring
  · rw [hnm, hnj, hni, hkdiv, ← hab]
    push_cast
    ring
  · rw [hnn, hnm, hnj, hni, hkdiv, ← hab]
    push_cast
    ring
  · exact gridNodes_getElem C plW _ r 1 _ (List.getElem?_eq_getElem hrb) c (by omega)
  · exact gridNodes_getElem C plW _ r 1 _ (List.getElem?_eq_getElem hrb) (c + 1) (by omega)
  · exact gridNodes_getElem C plW _ (r + 1) 1 _ (List.getElem?_eq_getElem hrb1) (c + 1)
      (by omega)
  · exact gridNodes_getElem C plW _ (r + 1) 1 _ (List.getElem?_eq_getElem hrb1) c (by omega)

theorem C8_unit_cell_connectivity_witness :
    (¬ (1 : ℚ) = 0) ∧ 1 ≤ pyRound ((1 : ℚ) / 1)
    ∧ descritize 1 1 1 1 1 1 []
        = .ok ([⟨1, 0, 0, 0, false, false, false, false, false, false⟩,
                ⟨2, 1, 0, 0, false, false, false, false, false, false⟩,
                ⟨3, 0, 1, 0, false, false, false, false, false, false⟩,
                ⟨4, 1, 1, 0, false, false, false, false, false, false⟩],
               [⟨1, 1, 2, 4, 3, 1, 1, 1⟩])
    ∧ (0 : ℕ) < ([(⟨1, 1, 2, 4, 3, 1, 1, 1⟩ : PyQuad)]).length
    ∧ (1 : ℕ) = (pyRound ((1 : ℚ) / 1)).toNat
    ∧ (0 : ℕ) = 0 / 1 ∧ (0 : ℕ) = 0 % 1
    ∧ (1 : ℚ) = 1 / ((pyRound ((1 : ℚ) / 1) : ℤ) : ℚ)
    ∧ ∃ (yr yr1 : ℚ) (q : PyQuad),
        (wallRowYs dedupPy 1 1 [])[(0 : ℕ)]? = some yr
        ∧ (wallRowYs dedupPy 1 1 [])[0 + 1]? = some yr1
        ∧ ([(⟨1, 1, 2, 4, 3, 1, 1, 1⟩ : PyQuad)])[(0 : ℕ)]? = some q
        ∧ q.id = 1 + ((0 : ℕ) : ℤ)
        ∧ q.ni = 1 + ((0 : ℕ) : ℤ) + ((0 / 1 : ℕ) : ℤ)
        ∧ q.nj = q.ni + 1
        ∧ q.nm = q.nj + (((1 : ℕ) : ℤ) + 1)
        ∧ q.nn = q.nm - 1
        ∧ q.t = 1 ∧ q.eMod = 1 ∧ q.nu = 1
        ∧ q.ni = 1 + ((0 * (1 + 1) + 0 : ℕ) : ℤ)
        ∧ q.nj = 1 + ((0 * (1 + 1) + (0 + 1) : ℕ) : ℤ)
        ∧ q.nm = 1 + (((0 + 1) * (1 + 1) + (0 + 1) : ℕ) : ℤ)
        ∧ q.nn = 1 + (((0 + 1) * (1 + 1) + 0 : ℕ) : ℤ)
        ∧ ([(⟨1, 0, 0, 0, false, false, false, false, false, false⟩ : PyNode),
            ⟨2, 1, 0, 0, false, false, false, false, false, false⟩,
            ⟨3, 0, 1, 0, false, false, false, false, false, false⟩,
            ⟨4, 1, 1, 0, false, false, false, false, false, false⟩])[0 * (1 + 1) + 0]?
            = some ⟨1 + ((0 * (1 + 1) + 0 : ℕ) : ℤ), ((0 : ℕ) : ℚ) * 1, yr, 0,
                false, false, false, false, false, false⟩
        ∧ ([(⟨1, 0, 0, 0, false, false, false, false, false, false⟩ : PyNode),
            ⟨2, 1, 0, 0, false, false, false, false, false, false⟩,
            ⟨3, 0, 1, 0, false, false, false, false, false, false⟩,
            ⟨4, 1, 1, 0, false, false, false, false, false, false⟩])[0 * (1 + 1) + (0 + 1)]?
            = some ⟨1 + ((0 * (1 + 1) + (0 + 1) : ℕ) : ℤ), ((0 + 1 : ℕ) : ℚ) * 1, yr, 0,
                false, false, false, false, false, false⟩
        ∧ ([(⟨1, 0, 0, 0, false, false, false, false, false, false⟩ : PyNode),
            ⟨2, 1, 0, 0, false, false, false, false, false, false⟩,
            ⟨3, 0, 1, 0, false, false, false, false, false, false⟩,
            ⟨4, 1, 1, 0, false, false, false, false, false, false⟩])[(0 + 1) * (1 + 1) + (0 + 1)]?
            = some ⟨1 + (((0 + 1) * (1 + 1) + (0 + 1) : ℕ) : ℤ), ((0 + 1 : ℕ) : ℚ) * 1, yr1, 0,
                false, false, false, false, false, false⟩
        ∧ ([(⟨1, 0, 0, 0, false, false, false, false, false, false⟩ : PyNode),
            ⟨2, 1, 0, 0, false, false, false, false, false, false⟩,
            ⟨3, 0, 1, 0, false, false, false, false, false, false⟩,
            ⟨4, 1, 1, 0, false, false, false, false, false, false⟩])[(0 + 1) * (1 + 1) + 0]?
            = some ⟨1 + (((0 + 1) * (1 + 1) + 0 : ℕ) : ℤ), ((0 : ℕ) : ℚ) * 1, yr1, 0,
                false, false, false, false, false, false⟩ := by
  have hok : descritize 1 1 1 1 1 1 []
      = .ok ([⟨1, 0, 0, 0, false, false, false, false, false, false⟩,
              ⟨2, 1, 0, 0, false, false, false, false, false, false⟩,
              ⟨3, 0, 1, 0, false, false, false, false, false, false⟩,
              ⟨4, 1, 1, 0, false, false, false, false, false, false⟩],
             [⟨1, 1, 2, 4, 3, 1, 1, 1⟩]) := by
    norm_num [descritize, descritizeD, pyRound, controlPointsD, liftStep, intTrunc]
    simp [List.range_succ]
  refine ⟨by norm_num, by norm_num [pyRound], hok, by norm_num,
    by norm_num [pyRound], by norm_num, by norm_num, by norm_num [pyRound], ?_⟩
  exact C8_unit_cell_connectivity 1 1 1 1 1 1 [] _ _ 0 1 0 0 1
    (by norm_num) (by norm_num [pyRound]) hok (by norm_num)
    (by norm_num [pyRound]) (by norm_num) (by norm_num) (by norm_num [pyRound])

/-- C2 (failing input): with `fy = A = Zy = Zz = 1` (so
`Py = Mpy = Mpz = 1`) at `(fx, my, mz) = (0, 1, 0)`, the closed-form
`SteelSection.G` puts `2` in the `dPhi_dmy` slot, but the analytic
partial derivative of `SteelSection.Phi` with respect to `my` at that
point is `4` (the `my` direction of `Phi` is `my_r⁴`, so the partial is
`4·my³/Mpy⁴`, not the code's `2·my/Mpy²`), and the base class's central
difference of the same `Phi` gives `4 + 4ε²` — the code's `G` is not the
gradient of its own `Phi`, contradicting the source comment
"Partial derivatives of Phi". -/
theorem C2_gradient_my_slot_mismatch :
    (steelG (1 : ℝ) 1 1 1 0 1 0).dMy = 2
    ∧ deriv (fun t : ℝ => steelPhi 1 1 1 1 0 t 0) 1 = 4
    ∧ (sectionG (steelPhi (1 : ℝ) 1 1 1) 0 1 0).dMy = 4 + 4 * (1 / 1000000 : ℝ) ^ 2
    ∧ ((2 : ℝ) ≠ 4) := by
  have hPhi : ∀ x : ℝ, steelPhi 1 1 1 1 0 x 0 = x ^ 4 := by
    intro x
    simp [steelPhi]
  refine ⟨?_, ?_, ?_, by norm_num⟩
  · simp [steelG]
  · have hfun : (fun t : ℝ => steelPhi 1 1 1 1 0 t 0) = fun t : ℝ => t ^ 4 := by
      funext t
      exact hPhi t
    rw [hfun, deriv_pow]
    norm_num
  · simp only [sectionG]
    rw [hPhi, hPhi]
    norm_num

end PyNiteV
